import Mathlib

/-
  Verification development for the JobHub repository (CareerJet job board).

  The repository's core logic lives in `lib/careerjet` (src/unnamed/part_000)
  and `lib/utils` (slug codec, quoted in src/README.md), plus the sitemap
  route.  Strings of the TypeScript code are modelled as `List Char`;
  JavaScript numbers used as timestamps/counters are modelled as `Nat`/`Int`;
  thrown JavaScript values are modelled by `JsError` and `Except`.  The
  module-level mutable `jobCache` (a JS `Map`) is modelled by explicit state
  passing of an insertion-ordered association list with unique keys, and
  `Date.now()` by an explicit `now : Nat` argument.
-/

/-! ### Generic list string helpers -/

/-- Model of JavaScript `String.prototype.split` with a single-character
separator: splitting the empty string yields `[[]]`, and each occurrence of
the separator starts a new (possibly empty) segment. -/
def splitOnChar (sep : Char) : List Char → List (List Char)
  | [] => [[]]
  | x :: xs =>
    if x = sep then [] :: splitOnChar sep xs
    else
      match splitOnChar sep xs with
      | [] => [[x]]
      | r :: rs => (x :: r) :: rs

/-! ### SHA-256 (model of Node `crypto.createHash("sha256")`)

All 32-bit words are `Nat` values kept below `2 ^ 32` by explicit reduction
`w32`; bitwise operators are the `Nat` bitwise operations. -/

/-- Reduce a `Nat` to a 32-bit word. -/
def w32 (n : Nat) : Nat := n % 4294967296

/-- Right rotation of a 32-bit word by `n` bits. -/
def rotr (n x : Nat) : Nat := w32 ((x >>> n) ||| (x <<< (32 - n)))

/-- SHA-256 `Ch` function; 32-bit complement is xor with `2 ^ 32 - 1`. -/
def shaCh (x y z : Nat) : Nat := (x &&& y) ^^^ ((x ^^^ 4294967295) &&& z)

/-- SHA-256 `Maj` function. -/
def shaMaj (x y z : Nat) : Nat := (x &&& y) ^^^ (x &&& z) ^^^ (y &&& z)

/-- SHA-256 big sigma 0. -/
def bsig0 (x : Nat) : Nat := rotr 2 x ^^^ rotr 13 x ^^^ rotr 22 x

/-- SHA-256 big sigma 1. -/
def bsig1 (x : Nat) : Nat := rotr 6 x ^^^ rotr 11 x ^^^ rotr 25 x

/-- SHA-256 small sigma 0. -/
def ssig0 (x : Nat) : Nat := rotr 7 x ^^^ rotr 18 x ^^^ (x >>> 3)

/-- SHA-256 small sigma 1. -/
def ssig1 (x : Nat) : Nat := rotr 17 x ^^^ rotr 19 x ^^^ (x >>> 10)

/-- The 64 SHA-256 round constants (decimal). -/
def shaK : List Nat :=
  [1116352408, 1899447441, 3049323471, 3921009573,
   961987163, 1508970993, 2453635748, 2870763221,
   3624381080, 310598401, 607225278, 1426881987,
   1925078388, 2162078206, 2614888103, 3248222580,
   3835390401, 4022224774, 264347078, 604807628,
   770255983, 1249150122, 1555081692, 1996064986,
   2554220882, 2821834349, 2952996808, 3210313671,
   3336571891, 3584528711, 113926993, 338241895,
   666307205, 773529912, 1294757372, 1396182291,
   1695183700, 1986661051, 2177026350, 2456956037,
   2730485921, 2820302411, 3259730800, 3345764771,
   3516065817, 3600352804, 4094571909, 275423344,
   430227734, 506948616, 659060556, 883997877,
   958139571, 1322822218, 1537002063, 1747873779,
   1955562222, 2024104815, 2227730452, 2361852424,
   2428436474, 2756734187, 3204031479, 3329325298]

/-- Working state of the SHA-256 compression function: eight 32-bit words. -/
structure SHAState where
  a : Nat
  b : Nat
  c : Nat
  d : Nat
  e : Nat
  f : Nat
  g : Nat
  h : Nat
deriving DecidableEq, Repr

/-- SHA-256 initial hash value (decimal). -/
def shaInit : SHAState :=
  ⟨1779033703, 3144134277, 1013904242, 2773480762,
   1359893119, 2600822924, 528734635, 1541459225⟩

/-- One round of the SHA-256 compression function; `kw` pairs the round
constant with the scheduled message word. -/
def compressRound (s : SHAState) (kw : Nat × Nat) : SHAState :=
  let t1 := w32 (s.h + bsig1 s.e + shaCh s.e s.f s.g + kw.1 + kw.2)
  let t2 := w32 (bsig0 s.a + shaMaj s.a s.b s.c)
  ⟨w32 (t1 + t2), s.a, s.b, s.c, w32 (s.d + t1), s.e, s.f, s.g⟩

/-- Big-endian conversion of a byte stream into 32-bit words. -/
def bytesToWords : List Nat → List Nat
  | a :: b :: c :: d :: rest =>
    (a * 16777216 + b * 65536 + c * 256 + d) :: bytesToWords rest
  | _ => []

/-- Message-schedule extension: prepends `n` further scheduled words to the
reversed schedule `acc`. -/
def msgScheduleAux : Nat → List Nat → List Nat
  | 0, acc => acc
  | n + 1, acc =>
    msgScheduleAux n
      (w32 (ssig1 (acc.getD 1 0) + acc.getD 6 0 + ssig0 (acc.getD 14 0) +
            acc.getD 15 0) :: acc)

/-- SHA-256 message schedule: the sixteen chunk words extended to 64. -/
def msgSchedule (w16 : List Nat) : List Nat :=
  (msgScheduleAux 48 w16.reverse).reverse

/-- Process one 64-byte chunk of the padded message. -/
def compressChunk (s : SHAState) (chunk : List Nat) : SHAState :=
  let w := msgSchedule (bytesToWords chunk)
  let t := (shaK.zip w).foldl compressRound s
  ⟨w32 (s.a + t.a), w32 (s.b + t.b), w32 (s.c + t.c), w32 (s.d + t.d),
   w32 (s.e + t.e), w32 (s.f + t.f), w32 (s.g + t.g), w32 (s.h + t.h)⟩

/-- SHA-256 padding: append `0x80`, zeros, and the 64-bit big-endian bit
length so the total length is a multiple of 64 bytes. -/
def shaPad (m : List Nat) : List Nat :=
  let L := 8 * m.length
  let k := (64 - ((m.length + 9) % 64)) % 64
  m ++ 128 :: (List.replicate k 0 ++
    [L / 2 ^ 56 % 256, L / 2 ^ 48 % 256, L / 2 ^ 40 % 256, L / 2 ^ 32 % 256,
     L / 2 ^ 24 % 256, L / 2 ^ 16 % 256, L / 2 ^ 8 % 256, L % 256])

/-- Split a byte stream into 64-byte chunks. -/
def toChunks (bs : List Nat) : List (List Nat) :=
  if h : bs = [] then []
  else bs.take 64 :: toChunks (bs.drop 64)
termination_by bs.length
decreasing_by
  simp only [List.length_drop]
  have : 0 < bs.length := List.length_pos.mpr h
  omega

/-- Big-endian serialization of a 32-bit word into four bytes. -/
def wordToBytes (x : Nat) : List Nat :=
  [x / 16777216 % 256, x / 65536 % 256, x / 256 % 256, x % 256]

/-- Serialize the final SHA-256 state into the 32-byte digest. -/
def stateToBytes (s : SHAState) : List Nat :=
  wordToBytes s.a ++ wordToBytes s.b ++ wordToBytes s.c ++ wordToBytes s.d ++
  wordToBytes s.e ++ wordToBytes s.f ++ wordToBytes s.g ++ wordToBytes s.h

/-- SHA-256 digest of a byte stream. -/
def sha256 (m : List Nat) : List Nat :=
  stateToBytes ((toChunks (shaPad m)).foldl compressChunk shaInit)

/-- UTF-8 encoding of one Unicode scalar value (model of Node's default
`utf8` input encoding for `Hash.update`). -/
def utf8EncodeChar (c : Char) : List Nat :=
  let n := c.toNat
  if n < 128 then [n]
  else if n < 2048 then [192 ||| (n >>> 6), 128 ||| (n &&& 63)]
  else if n < 65536 then
    [224 ||| (n >>> 12), 128 ||| ((n >>> 6) &&& 63), 128 ||| (n &&& 63)]
  else
    [240 ||| (n >>> 18), 128 ||| ((n >>> 12) &&& 63),
     128 ||| ((n >>> 6) &&& 63), 128 ||| (n &&& 63)]

/-- UTF-8 encoding of a string. -/
def utf8Encode (s : List Char) : List Nat := s.flatMap utf8EncodeChar

/-- The sixteen lowercase hexadecimal digits, low nibble first to last. -/
def hexDigits : List Char := ("0123456789abcdef").toList

/-- Lowercase hexadecimal digit for a nibble. -/
def hexChar (n : Nat) : Char := hexDigits.getD n '0'

/-- Hexadecimal rendering of one byte: high nibble then low nibble. -/
def byteToHexChars (b : Nat) : List Char :=
  [hexChar ((b >>> 4) &&& 15), hexChar (b &&& 15)]

/-- Model of `Buffer.prototype.toString("hex")`: lowercase hex rendering. -/
def bytesToHex (bs : List Nat) : List Char := bs.flatMap byteToHexChars

/-- Hex digest of a string, as produced by
`crypto.createHash("sha256").update(url).digest("hex")`. -/
def sha256Hex (s : List Char) : List Char := bytesToHex (sha256 (utf8Encode s))

/-! ### Slug codec (model of `lib/utils`) -/

/-- Model of `String.prototype.toLowerCase` on one character.  The model
covers the ASCII range; characters outside `A`–`Z` are left unchanged (the
claims proved below do not depend on non-ASCII lowercasing). -/
def jsToLower (c : Char) : Char :=
  if 65 ≤ c.toNat ∧ c.toNat ≤ 90 then Char.ofNat (c.toNat + 32) else c

/-- Model of `String.prototype.normalize("NFKD")`.  NFKD is the identity on
ASCII; the decomposition of non-ASCII characters is modelled as the identity
(the claims proved below hold for every choice of this map). -/
def nfkd (s : List Char) : List Char := s

/-- Membership in the regex class `\w` (`[A-Za-z0-9_]`, no `u` flag),
written on ASCII code points: 97-122 is `a`-`z`, 65-90 is `A`-`Z`,
48-57 is `0`-`9`, 95 is the underscore. -/
def isWordChar (c : Char) : Bool :=
  let n := c.toNat
  (97 ≤ n && n ≤ 122) || (65 ≤ n && n ≤ 90) || (48 ≤ n && n ≤ 57) || n = 95

/-- Membership in the regex class `\s`, modelled on the ASCII whitespace
characters (space, tab, line feed, carriage return, vertical tab, form
feed). -/
def isJsSpace (c : Char) : Bool :=
  c = ' ' || c = '\t' || c = '\n' || c = '\r' || c.toNat = 11 || c.toNat = 12

/-- A character matched by `[\s_-]` (collapsed to a hyphen by `slugify`). -/
def isSepChar (c : Char) : Bool := isJsSpace c || c = '_' || c = '-'

/-- Model of `String.prototype.trim`. -/
def trimChars (s : List Char) : List Char :=
  ((s.dropWhile (fun c => isJsSpace c)).reverse.dropWhile
    (fun c => isJsSpace c)).reverse

/-- Model of `.replace(/[\s_-]+/g, "-")`: each maximal run of separator
characters becomes a single hyphen. -/
def collapseSeps : List Char → List Char
  | [] => []
  | c :: rest =>
    let r := collapseSeps rest
    if isSepChar c then
      match r with
      | '-' :: _ => r
      | _ => '-' :: r
    else c :: r

/-- Model of `.replace(/^-+|-+$/g, "")`: strip leading and trailing
hyphens. -/
def trimHyphens (s : List Char) : List Char :=
  ((s.dropWhile (fun c => c = '-')).reverse.dropWhile
    (fun c => c = '-')).reverse

/-- Model of `slugify` from `lib/utils`: lowercase, NFKD-normalize, strip characters
outside `[\w\s-]`, trim, collapse separator runs to hyphens, trim hyphens. -/
def slugify (input : List Char) : List Char :=
  trimHyphens (collapseSeps (trimChars
    ((nfkd (input.map jsToLower)).filter
      (fun c => isWordChar c || isJsSpace c || c = '-'))))

/-- Model of `makeJobSlug` from `lib/utils`: slugified title (or the placeholder
`"job-opening"` when the slugified title is empty, via JS `||` on the empty
string), a hyphen, and the first 10 hex characters of the SHA-256 digest of
the URL. -/
def makeJobSlug (title url : List Char) : List Char :=
  let base :=
    if slugify title = [] then ("job-opening").toList else slugify title
  let hash := (sha256Hex url).take 10
  base ++ '-' :: hash

/-- Model of `extractHashFromSlug` from `lib/utils`: the segment after the final
hyphen (JS `split` never returns an empty array, so the guarded branch
returning `""` is dead; it is kept for fidelity). -/
def extractHashFromSlug (slug : List Char) : List Char :=
  let parts := splitOnChar '-' slug
  if parts.isEmpty then [] else (parts.getLast?).getD []

/-! ### Data model (interfaces of `lib/careerjet`)

TypeScript strings become `List Char`, optional fields become `Option`,
numbers used by the claims are integers (`Int`/`Nat`); enum-like one-letter
string unions (`salary_type`, `contractType`, `workHours`) become `Char`. -/

/-- A raw job record as parsed from the CareerJet response
(`CareerjetRawJob`): every field may be absent. -/
structure CareerjetRawJob where
  title : Option (List Char) := none
  company : Option (List Char) := none
  date : Option (List Char) := none
  description : Option (List Char) := none
  locations : Option (List Char) := none
  salary : Option (List Char) := none
  salary_currency_code : Option (List Char) := none
  salary_max : Option Int := none
  salary_min : Option Int := none
  salary_type : Option Char := none
  site : Option (List Char) := none
  url : Option (List Char) := none
deriving DecidableEq, Repr

/-- A normalized job record (`CareerjetJob`). -/
structure CareerjetJob where
  title : List Char
  company : List Char
  date : List Char
  description : List Char
  locations : List Char
  salary : Option (List Char)
  salary_currency_code : Option (List Char)
  salary_max : Option Int
  salary_min : Option Int
  salary_type : Option Char
  site : List Char
  url : List Char
  apply_url : Option (List Char)
  slug : List Char
deriving DecidableEq, Repr

/-- Search criteria (`CareerjetSearchCriteria`): all fields optional. -/
structure CareerjetSearchCriteria where
  keywords : Option (List Char) := none
  location : Option (List Char) := none
  contractType : Option Char := none
  workHours : Option Char := none
  page : Option Nat := none
  pageSize : Option Nat := none
  radius : Option Nat := none
deriving DecidableEq, Repr

/-- The body of a parsed CareerJet response before job normalization. -/
structure CareerjetRawResponse where
  type : List Char
  hits : Option Nat := none
  message : Option (List Char) := none
  pages : Option Nat := none
  response_time : Option Nat := none
  jobs : Option (List CareerjetRawJob) := none
  locations : Option (List (List Char)) := none
deriving DecidableEq, Repr

/-- A search response as returned to callers (`CareerjetSearchResponse`),
with jobs normalized. -/
structure CareerjetSearchResponse where
  type : List Char
  hits : Option Nat := none
  message : Option (List Char) := none
  pages : Option Nat := none
  response_time : Option Nat := none
  jobs : Option (List CareerjetJob) := none
  locations : Option (List (List Char)) := none
deriving DecidableEq, Repr

/-- A thrown JavaScript value: its `message` and whether it is an
`instanceof Error` (JS permits throwing non-`Error` values). -/
structure JsError where
  message : List Char
  isError : Bool
deriving DecidableEq, Repr

/-! ### The in-memory job cache (model of the module-level `jobCache` Map)

A JS `Map` keeps one binding per key in insertion order; `set` on an existing
key overwrites in place.  It is modelled by an association list with unique
keys threaded explicitly through the operations; `Date.now()` becomes an
explicit `now` parameter (milliseconds). -/

/-- One cache slot: a job together with its absolute expiration instant. -/
structure CacheEntry where
  job : CareerjetJob
  expiresAt : Nat
deriving DecidableEq, Repr

/-- The model of the module-level `jobCache` map. -/
abbrev JobCache := List (List Char × CacheEntry)

/-- Model of `Map.prototype.get`. -/
def mapGet (m : JobCache) (k : List Char) : Option CacheEntry :=
  match m with
  | [] => none
  | (k', v) :: rest => if k' = k then some v else mapGet rest k

/-- Model of `Map.prototype.set`: overwrite in place when the key is present
(keeping its position, as a JS `Map` does), else append. -/
def mapSet (m : JobCache) (k : List Char) (v : CacheEntry) : JobCache :=
  match m with
  | [] => [(k, v)]
  | (k', v') :: rest =>
    if k' = k then (k, v) :: rest else (k', v') :: mapSet rest k v

/-- Model of `Map.prototype.delete`: remove the binding of `k` (on the unique-keyed
lists a JS `Map` produces this removes at most one entry). -/
def mapDelete (m : JobCache) (k : List Char) : JobCache :=
  m.filter (fun p => !(p.1 = k : Bool))

/-- Constant `JOB_CACHE_TTL_MS = 1000 * 60 * 15`. -/
def JOB_CACHE_TTL_MS : Nat := 1000 * 60 * 15

/-- Constant `CACHE_TTL_SECONDS = 600` (revalidation window of `unstable_cache`). -/
def CACHE_TTL_SECONDS : Nat := 600

/-- Constant `DEFAULT_PAGE_SIZE = 20`. -/
def DEFAULT_PAGE_SIZE : Nat := 20

/-- Model of `rememberJobs`: store every job under the hash extracted from its slug,
all with the same freshly computed expiration `now + JOB_CACHE_TTL_MS`. -/
def rememberJobs (cache : JobCache) (now : Nat) (jobs : List CareerjetJob) :
    JobCache :=
  let expiresAt := now + JOB_CACHE_TTL_MS
  jobs.foldl
    (fun c job => mapSet c (extractHashFromSlug job.slug) ⟨job, expiresAt⟩)
    cache

/-- Model of `getJobFromCache`: return the cached job unless absent or expired; an
expired entry is deleted.  Returns the result together with the updated
cache state. -/
def getJobFromCache (cache : JobCache) (now : Nat) (hash : List Char) :
    Option CareerjetJob × JobCache :=
  match mapGet cache hash with
  | none => (none, cache)
  | some cached =>
    if cached.expiresAt < now then (none, mapDelete cache hash)
    else (some cached.job, cache)

/-- Model of `getCachedJobsSnapshot`: scan the cache in iteration order, collecting
the jobs of non-expired entries and deleting expired ones.  Returns the
collected jobs together with the updated cache state. -/
def getCachedJobsSnapshot (cache : JobCache) (now : Nat) :
    List CareerjetJob × JobCache :=
  match cache with
  | [] => ([], [])
  | (hash, e) :: rest =>
    let r := getCachedJobsSnapshot rest now
    if e.expiresAt ≥ now then (e.job :: r.1, (hash, e) :: r.2)
    else (r.1, r.2)

/-! ### Search client (model of `lib/careerjet`) -/

/-- Model of `normalizeJob`: fill every absent raw field with its default and derive
the slug from the (defaulted) title and URL; `apply_url` is set to the raw
`url` (defaulted to the empty string), never to a separate apply link. -/
def normalizeJob (raw : CareerjetRawJob) : CareerjetJob :=
  let slug := makeJobSlug (raw.title.getD (("Job Opening").toList))
    (raw.url.getD [])
  { title := raw.title.getD (("Job Opening").toList)
    company := raw.company.getD []
    date := raw.date.getD []
    description := raw.description.getD []
    locations := raw.locations.getD []
    salary := raw.salary
    salary_currency_code := raw.salary_currency_code
    salary_max := raw.salary_max
    salary_min := raw.salary_min
    salary_type := raw.salary_type
    site := raw.site.getD []
    url := raw.url.getD []
    apply_url := some (raw.url.getD [])
    slug := slug }

/-- Model of `emptyResponse`: the degraded response returned when a search fails. -/
def emptyResponse (message : Option (List Char)) : CareerjetSearchResponse :=
  { type := ("ERROR").toList
    message := message
    hits := some 0
    pages := some 1
    jobs := some [] }

/-- The message of the error thrown by `ensureApiKey`. -/
def missingApiKeyMessage : List Char :=
  ("Missing CAREERJET_API_KEY environment variable. Please set it in your environment.").toList

/-- Model of `ensureApiKey`: the environment variable `CAREERJET_API_KEY` is modelled
as an `Option`; when absent an `Error` is thrown. -/
def ensureApiKey (env : Option (List Char)) : Except JsError (List Char) :=
  match env with
  | none => .error ⟨missingApiKeyMessage, true⟩
  | some apiKey => .ok apiKey

/-- The outcome of the `fetch` call inside `cachedSearch`: either the
promise rejects (network failure), or an HTTP response arrives.  `dataOrErr`
models `response.json()`, which may itself throw on malformed bodies. -/
structure HttpReply where
  ok : Bool
  status : Nat
  statusText : List Char
  bodyText : List Char
  dataOrErr : Except JsError CareerjetRawResponse
deriving Repr

/-- The behavior of the network during one search. -/
inductive NetOutcome where
  | reject (e : JsError)
  | reply (resp : HttpReply)
deriving Repr

/-- The message of the `Error` thrown on a non-2xx response:
`Careerjet API error (status): message-or-statusText` (JS `||` falls back to
`statusText` when the body text is empty). -/
def apiErrorMessage (status : Nat) (bodyText statusText : List Char) :
    List Char :=
  ("Careerjet API error (").toList ++ Nat.toDigits 10 status ++
    ("): ").toList ++ (if bodyText = [] then statusText else bodyText)

/-- The fetch-and-parse step wrapped by `unstable_cache` in `cachedSearch`:
check the credential (thrown by `buildAuthHeader` before the request),
perform the fetch, reject non-2xx replies, parse, normalize jobs and
remember them.  Errors are modelled by `Except.error`; the pure
response-memoization of `unstable_cache` is not modelled (it only short
circuits repeats of an identical query within the revalidation window). -/
def cachedSearch (env : Option (List Char)) (net : NetOutcome)
    (cache : JobCache) (now : Nat) :
    Except JsError (CareerjetSearchResponse × JobCache) :=
  match ensureApiKey env with
  | .error e => .error e
  | .ok _ =>
    match net with
    | .reject e => .error e
    | .reply resp =>
      if resp.ok then
        match resp.dataOrErr with
        | .error e => .error e
        | .ok data =>
          match data.jobs with
          | some rawJobs =>
            let jobs := rawJobs.map normalizeJob
            .ok ({ type := data.type, hits := data.hits,
                   message := data.message, pages := data.pages,
                   response_time := data.response_time, jobs := some jobs,
                   locations := data.locations },
                 rememberJobs cache now jobs)
          | none =>
            .ok ({ type := data.type, hits := data.hits,
                   message := data.message, pages := data.pages,
                   response_time := data.response_time, jobs := none,
                   locations := data.locations }, cache)
      else
        .error ⟨apiErrorMessage resp.status resp.bodyText resp.statusText,
                true⟩

/-- The fallback message used when the caught value is not an `Error`. -/
def unavailableMessage : List Char := ("Careerjet API unavailable").toList

/-- Model of `searchJobs`: run the fetch-and-parse step and convert any thrown error
into `emptyResponse` carrying the error's message (or the fallback message
for non-`Error` values).  The network behavior is a function of the
criteria, modelling that the query string sent upstream is built from the
criteria.  Never throws. -/
def searchJobs (criteria : CareerjetSearchCriteria)
    (env : Option (List Char)) (net : CareerjetSearchCriteria → NetOutcome)
    (cache : JobCache) (now : Nat) : CareerjetSearchResponse × JobCache :=
  match cachedSearch env (net criteria) cache now with
  | .ok rc => rc
  | .error e =>
    (emptyResponse (some (if e.isError then e.message else unavailableMessage)),
     cache)

/-! ### Slug resolver and sitemap -/

/-- Model of `.replace(/\s+/g, " ")`: each maximal run of whitespace becomes
a single space. -/
def collapseWs : List Char → List Char
  | [] => []
  | c :: rest =>
    let r := collapseWs rest
    if isJsSpace c then
      match r with
      | ' ' :: _ => r
      | _ => ' ' :: r
    else c :: r

/-- The criteria actually searched by `findJobBySlug`: the fallback criteria,
with keywords reconstructed from the slug (hyphen segments minus the trailing
hash, joined by spaces, whitespace collapsed) when the fallback keywords are
falsy (absent or the empty string). -/
def resolveCriteria (slug : List Char)
    (fallbackCriteria : CareerjetSearchCriteria) : CareerjetSearchCriteria :=
  let keywordsFalsy :=
    match fallbackCriteria.keywords with
    | none => true
    | some s => s.isEmpty
  if keywordsFalsy then
    { fallbackCriteria with
      keywords := some (collapseWs
        (List.intercalate [' '] ((splitOnChar '-' slug).dropLast))) }
  else fallbackCriteria

/-- Model of `findJobBySlug`: try the job cache under the slug's hash; on a miss,
run a single search with `resolveCriteria` and scan that one page of results
for a job whose own slug hash matches.  Returns the job (or `none`) and the
final cache state. -/
def findJobBySlug (slug : List Char)
    (fallbackCriteria : CareerjetSearchCriteria) (env : Option (List Char))
    (net : CareerjetSearchCriteria → NetOutcome) (cache : JobCache)
    (now : Nat) : Option CareerjetJob × JobCache :=
  let hash := extractHashFromSlug slug
  let gc := getJobFromCache cache now hash
  match gc.1 with
  | some cached => (some cached, gc.2)
  | none =>
    let sr := searchJobs (resolveCriteria slug fallbackCriteria) env net
      gc.2 now
    let job :=
      match sr.1.jobs with
      | none => none
      | some js =>
        js.find? (fun item => extractHashFromSlug item.slug == hash)
    (job, sr.2)

/-- One entry of the emitted sitemap.  `lastModified` is a timestamp
(an integer, model of the JS `Date`); `priority` is exact (no floating
point arithmetic is performed on it). -/
structure SitemapEntry where
  url : List Char
  lastModified : Int
  changeFrequency : List Char
  priority : Rat
deriving DecidableEq, Repr

/-- Model of `siteUrl.replace(/\/$/, "")`: strip one trailing slash. -/
def stripTrailingSlash (siteUrl : List Char) : List Char :=
  match siteUrl.getLast? with
  | some '/' => siteUrl.dropLast
  | _ => siteUrl

/-- The sitemap entry built for one job: its detail URL, last-modified from
the job's posting date (`new Date(job.date)`, modelled by `parseDate`, with
the current time `nowDate` when unparseable), daily change frequency,
priority 0.6. -/
def jobSitemapEntry (origin : List Char) (parseDate : List Char → Option Int)
    (nowDate : Int) (job : CareerjetJob) : SitemapEntry :=
  { url := origin ++ ("/jobs/").toList ++ job.slug
    lastModified := (parseDate job.date).getD nowDate
    changeFrequency := ("daily").toList
    priority := (6 : Rat) / 10 }

/-- The home-page sitemap entry. -/
def homeSitemapEntry (origin : List Char) (nowDate : Int) : SitemapEntry :=
  { url := origin ++ ['/']
    lastModified := nowDate
    changeFrequency := ("hourly").toList
    priority := 1 }

/-- Model of `app/sitemap.ts`: take a cache snapshot; when it is empty, fall back to
one `searchJobs({ pageSize: 20 })` and use its jobs (the `try`/`catch`
around that call is dead, since `searchJobs` never throws).  Emit the home
entry followed by one entry per job used. -/
def sitemap (siteUrl : List Char) (parseDate : List Char → Option Int)
    (nowDate : Int) (env : Option (List Char))
    (net : CareerjetSearchCriteria → NetOutcome) (cache : JobCache)
    (now : Nat) : List SitemapEntry × JobCache :=
  let origin := stripTrailingSlash siteUrl
  let snap := getCachedJobsSnapshot cache now
  let jc :=
    if snap.1.length = 0 then
      let sr := searchJobs { pageSize := some 20 } env net snap.2 now
      ((sr.1.jobs.getD []), sr.2)
    else snap
  (homeSitemapEntry origin nowDate ::
    jc.1.map (jobSitemapEntry origin parseDate nowDate), jc.2)

/-! ### Auxiliary definitions used by the statements and witnesses -/

/-- The last job of a list whose slug hash is `h` (the one whose cache
entry survives the overwrites performed by `rememberJobs`). -/
def lastJobWithHash (h : List Char) : List CareerjetJob → Option CareerjetJob
  | [] => none
  | j :: js =>
    match lastJobWithHash h js with
    | some j' => some j'
    | none => if extractHashFromSlug j.slug = h then some j else none

/-- The invariant of the job cache: every entry is keyed by the hash
extracted from its own job's slug. -/
def CacheWellKeyed (cache : JobCache) : Prop :=
  ∀ p ∈ cache, extractHashFromSlug p.2.job.slug = p.1

/-- Cache states reachable from the initial empty `jobCache` by any
sequence of `rememberJobs`, `getJobFromCache` and `getCachedJobsSnapshot`
operations. -/
inductive CacheReachable : JobCache → Prop where
  | init : CacheReachable []
  | rememberStep (c : JobCache) (now : Nat) (jobs : List CareerjetJob) :
      CacheReachable c → CacheReachable (rememberJobs c now jobs)
  | getStep (c : JobCache) (now : Nat) (hash : List Char) :
      CacheReachable c → CacheReachable (getJobFromCache c now hash).2
  | snapshotStep (c : JobCache) (now : Nat) :
      CacheReachable c → CacheReachable (getCachedJobsSnapshot c now).2

/-- A concrete job record used by witnesses. -/
def sampleJob : CareerjetJob :=
  { title := ("T").toList
    company := []
    date := []
    description := []
    locations := []
    salary := none
    salary_currency_code := none
    salary_max := none
    salary_min := none
    salary_type := none
    site := []
    url := []
    apply_url := some []
    slug := ("x").toList }

/-- A network behavior whose fetch always rejects, used by witnesses. -/
def rejectNet : CareerjetSearchCriteria → NetOutcome :=
  fun _ => .reject ⟨("fetch failed").toList, true⟩

/-- A network behavior that answers every query with a 200 response holding
one raw job with every field absent, used by the sitemap counterexample. -/
def oneJobNet : CareerjetSearchCriteria → NetOutcome :=
  fun _ => .reply
    { ok := true
      status := 200
      statusText := []
      bodyText := []
      dataOrErr := .ok { type := ("JOBS").toList, jobs := some [{}] } }

/-! ### Lemmas about `splitOnChar` -/

theorem splitOnChar_ne_nil (sep : Char) (xs : List Char) :
    splitOnChar sep xs ≠ [] := by
  induction xs with
  | nil => simp [splitOnChar]
  | cons x xs ih =>
    simp only [splitOnChar]
    split
    · simp
    · split <;> simp

theorem splitOnChar_of_not_mem {sep : Char} {xs : List Char}
    (h : sep ∉ xs) : splitOnChar sep xs = [xs] := by
  induction xs with
  | nil => rfl
  | cons x xs ih =>
    simp only [List.mem_cons, not_or] at h
    simp only [splitOnChar]
    rw [if_neg (fun hx => h.1 hx.symm), ih h.2]

theorem two_le_splitOnChar_length {sep : Char} {xs : List Char}
    (h : sep ∈ xs) : 2 ≤ (splitOnChar sep xs).length := by
  induction xs with
  | nil => cases h
  | cons x xs ih =>
    simp only [splitOnChar]
    by_cases hx : x = sep
    · rw [if_pos hx]
      cases hsp : splitOnChar sep xs with
      | nil => exact absurd hsp (splitOnChar_ne_nil sep xs)
      | cons r rs => simp
    · rw [if_neg hx]
      have hmem : sep ∈ xs := by
        rcases List.mem_cons.mp h with h1 | h2
        · exact absurd h1.symm hx
        · exact h2
      have h2 := ih hmem
      cases hsp : splitOnChar sep xs with
      | nil => exact absurd hsp (splitOnChar_ne_nil sep xs)
      | cons r rs =>
        rw [hsp] at h2
        simp only [List.length_cons] at h2 ⊢
        omega

theorem splitOnChar_append_getLast? (sep : Char) (l ys : List Char)
    (h : sep ∉ ys) :
    (splitOnChar sep (l ++ sep :: ys)).getLast? = some ys := by
  induction l with
  | nil =>
    simp only [List.nil_append, splitOnChar, if_pos rfl]
    rw [splitOnChar_of_not_mem h]
    simp
  | cons x l ih =>
    simp only [List.cons_append, splitOnChar]
    by_cases hx : x = sep
    · rw [if_pos hx]
      cases hsp : splitOnChar sep (l ++ sep :: ys) with
      | nil => exact absurd hsp (splitOnChar_ne_nil _ _)
      | cons r rs =>
        rw [List.getLast?_cons_cons, ← hsp, ih]
    · rw [if_neg hx]
      have hmem : sep ∈ l ++ sep :: ys := by simp
      have h2 := two_le_splitOnChar_length hmem
      cases hsp : splitOnChar sep (l ++ sep :: ys) with
      | nil => exact absurd hsp (splitOnChar_ne_nil _ _)
      | cons r rs =>
        cases rs with
        | nil => rw [hsp] at h2; simp at h2
        | cons r2 rs2 =>
          rw [List.getLast?_cons_cons]
          have hl := ih
          rw [hsp, List.getLast?_cons_cons] at hl
          exact hl

theorem extractHashFromSlug_append (base hash : List Char)
    (h : '-' ∉ hash) :
    extractHashFromSlug (base ++ '-' :: hash) = hash := by
  have hne := splitOnChar_ne_nil '-' (base ++ '-' :: hash)
  have hlast := splitOnChar_append_getLast? '-' base hash h
  simp only [extractHashFromSlug]
  rw [if_neg (by simpa [List.isEmpty_iff] using hne), hlast]
  rfl

/-! ### Lemmas about the hex digest -/

theorem hexChar_mem_hexDigits {n : Nat} (h : n < 16) :
    hexChar n ∈ hexDigits := by
  have hall : ∀ m < 16, hexChar m ∈ hexDigits := by decide
  exact hall n h

theorem mem_bytesToHex_mem_hexDigits {c : Char} {bs : List Nat}
    (h : c ∈ bytesToHex bs) : c ∈ hexDigits := by
  rcases List.mem_flatMap.mp h with ⟨b, _, hc⟩
  have hlt : ∀ x : Nat, x &&& 15 < 16 := by
    intro x
    have := Nat.and_le_right (n := x) (m := 15)
    omega
  simp only [byteToHexChars, List.mem_cons, List.not_mem_nil, or_false] at hc
  rcases hc with hc | hc <;> rw [hc] <;> exact hexChar_mem_hexDigits (hlt _)

theorem hyphen_not_mem_hash (url : List Char) :
    '-' ∉ (sha256Hex url).take 10 := by
  intro hmem
  have h1 : '-' ∈ sha256Hex url := (List.take_sublist 10 _).subset hmem
  exact absurd (mem_bytesToHex_mem_hexDigits h1) (by decide)

theorem length_bytesToHex (bs : List Nat) :
    (bytesToHex bs).length = 2 * bs.length := by
  induction bs with
  | nil => rfl
  | cons b bs ih =>
    simp only [bytesToHex, List.flatMap_cons, List.length_append,
      byteToHexChars, List.length_cons, List.length_nil] at *
    omega

theorem length_sha256 (m : List Nat) : (sha256 m).length = 32 := by
  simp [sha256, stateToBytes, wordToBytes]

theorem length_sha256Hex (s : List Char) : (sha256Hex s).length = 64 := by
  simp [sha256Hex, length_bytesToHex, length_sha256]

theorem length_hash10 (url : List Char) :
    ((sha256Hex url).take 10).length = 10 := by
  simp [List.length_take, length_sha256Hex]

theorem makeJobSlug_eq (title url : List Char) :
    makeJobSlug title url =
      (if slugify title = [] then ("job-opening").toList else slugify title)
        ++ '-' :: (sha256Hex url).take 10 := rfl

/-- Claim C5: for every title whose normalized (slugified) form is non-empty
and every URL, `extractHashFromSlug (makeJobSlug title url)` is exactly the
first 10 hex characters of the SHA-256 digest of the URL — a string of
exactly 10 lowercase hexadecimal characters. -/
theorem extractHash_makeJobSlug (title url : List Char)
    (_hne : slugify title ≠ []) :
    extractHashFromSlug (makeJobSlug title url) = (sha256Hex url).take 10 ∧
    (extractHashFromSlug (makeJobSlug title url)).length = 10 ∧
    ∀ c ∈ extractHashFromSlug (makeJobSlug title url), c ∈ hexDigits := by
  have hh := extractHashFromSlug_append
    (if slugify title = [] then ("job-opening").toList else slugify title)
    ((sha256Hex url).take 10) (hyphen_not_mem_hash url)
  rw [makeJobSlug_eq, hh]
  refine ⟨rfl, length_hash10 url, ?_⟩
  intro c hc
  exact mem_bytesToHex_mem_hexDigits ((List.take_sublist 10 _).subset hc)

/-- Witness for C5 at a concrete title and URL. -/
theorem extractHash_makeJobSlug_witness :
    slugify (("ab").toList) ≠ [] ∧
    (extractHashFromSlug
      (makeJobSlug (("ab").toList) (("u").toList))).length = 10 :=
  ⟨by decide,
   (extractHash_makeJobSlug (("ab").toList) (("u").toList) (by decide)).2.1⟩

theorem take_append_hash (B H : List Char) (hH : H.length = 10) :
    (B ++ '-' :: H).take ((B ++ '-' :: H).length - 10) = B ++ ['-'] ∧
    (B ++ '-' :: H).drop ((B ++ '-' :: H).length - 10) = H := by
  have h2 : (B ++ '-' :: H).length - 10 = (B ++ ['-']).length := by
    simp only [List.length_append, List.length_cons, List.length_nil, hH]
    omega
  have h1 : B ++ '-' :: H = (B ++ ['-']) ++ H := by simp
  rw [h2, h1]
  exact ⟨List.take_left _ _, List.drop_left _ _⟩

/-- Claim C6: `makeJobSlug` is deterministic, and the slug factors into a
title-derived base and the URL-derived 10-character suffix: for a fixed
title, changing the URL does not change the prefix up to and including the
final hyphen; for a fixed URL, changing the title does not change the
10-character suffix. -/
theorem makeJobSlug_deterministic_factors (t t' u u' : List Char) :
    makeJobSlug t u = makeJobSlug t u ∧
    (makeJobSlug t u).take ((makeJobSlug t u).length - 10) =
      (makeJobSlug t u').take ((makeJobSlug t u').length - 10) ∧
    (makeJobSlug t u).drop ((makeJobSlug t u).length - 10) =
      (makeJobSlug t' u).drop ((makeJobSlug t' u).length - 10) ∧
    ((makeJobSlug t u).drop ((makeJobSlug t u).length - 10)).length = 10 := by
  have k1 := take_append_hash
    (if slugify t = [] then ("job-opening").toList else slugify t)
    ((sha256Hex u).take 10) (length_hash10 u)
  have k2 := take_append_hash
    (if slugify t = [] then ("job-opening").toList else slugify t)
    ((sha256Hex u').take 10) (length_hash10 u')
  have k3 := take_append_hash
    (if slugify t' = [] then ("job-opening").toList else slugify t')
    ((sha256Hex u).take 10) (length_hash10 u)
  rw [makeJobSlug_eq t u, makeJobSlug_eq t u', makeJobSlug_eq t' u]
  refine ⟨rfl, k1.1.trans k2.1.symm, k1.2.trans k3.2.symm, ?_⟩
  rw [k1.2]
  exact length_hash10 u

/-! ### Lemmas about the job cache -/

theorem mapGet_mapSet_self (m : JobCache) (k : List Char) (v : CacheEntry) :
    mapGet (mapSet m k v) k = some v := by
  induction m with
  | nil => simp [mapSet, mapGet]
  | cons p rest ih =>
    obtain ⟨k', v'⟩ := p
    simp only [mapSet]
    by_cases hk : k' = k
    · rw [if_pos hk]
      simp [mapGet]
    · rw [if_neg hk]
      simp only [mapGet, if_neg hk]
      exact ih

theorem mapGet_mapSet_ne (m : JobCache) {k k' : List Char} (v : CacheEntry)
    (h : k ≠ k') : mapGet (mapSet m k v) k' = mapGet m k' := by
  induction m with
  | nil => simp [mapSet, mapGet, h]
  | cons p rest ih =>
    obtain ⟨k0, v0⟩ := p
    simp only [mapSet]
    by_cases hk : k0 = k
    · subst hk
      rw [if_pos rfl]
      simp only [mapGet, if_neg h]
    · rw [if_neg hk]
      simp only [mapGet]
      by_cases hk' : k0 = k'
      · rw [if_pos hk', if_pos hk']
      · rw [if_neg hk', if_neg hk']
        exact ih

theorem mapGet_rememberJobs (cache : JobCache) (now : Nat)
    (jobs : List CareerjetJob) (h : List Char) :
    mapGet (rememberJobs cache now jobs) h =
      match lastJobWithHash h jobs with
      | some j => some ⟨j, now + JOB_CACHE_TTL_MS⟩
      | none => mapGet cache h := by
  induction jobs generalizing cache with
  | nil => rfl
  | cons j js ih =>
    simp only [rememberJobs, List.foldl_cons] at *
    rw [ih]
    simp only [lastJobWithHash]
    cases hlast : lastJobWithHash h js with
    | some j' => rfl
    | none =>
      by_cases hj : extractHashFromSlug j.slug = h
      · rw [if_pos hj, hj]
        exact mapGet_mapSet_self cache h _
      · rw [if_neg hj]
        exact mapGet_mapSet_ne cache _ hj

theorem lastJobWithHash_eq_some {h : List Char} {jobs : List CareerjetJob}
    {j : CareerjetJob} (hl : lastJobWithHash h jobs = some j) :
    j ∈ jobs ∧ extractHashFromSlug j.slug = h := by
  induction jobs with
  | nil => cases hl
  | cons a js ih =>
    simp only [lastJobWithHash] at hl
    cases hlast : lastJobWithHash h js with
    | some j' =>
      rw [hlast] at hl
      obtain rfl : j' = j := Option.some.inj hl
      obtain ⟨hmem, hh⟩ := ih hlast
      exact ⟨List.mem_cons_of_mem a hmem, hh⟩
    | none =>
      rw [hlast] at hl
      by_cases ha : extractHashFromSlug a.slug = h
      · rw [if_pos ha] at hl
        obtain rfl : a = j := Option.some.inj hl
        exact ⟨List.mem_cons_self a js, ha⟩
      · rw [if_neg ha] at hl
        cases hl

theorem lastJobWithHash_eq_none {h : List Char} {jobs : List CareerjetJob}
    (hl : lastJobWithHash h jobs = none) :
    ∀ j ∈ jobs, extractHashFromSlug j.slug ≠ h := by
  induction jobs with
  | nil => intro j hj; cases hj
  | cons a js ih =>
    simp only [lastJobWithHash] at hl
    cases hlast : lastJobWithHash h js with
    | some j' => rw [hlast] at hl; cases hl
    | none =>
      rw [hlast] at hl
      intro j hj
      rcases List.mem_cons.mp hj with rfl | hmem
      · intro hh
        rw [if_pos hh] at hl
        cases hl
      · exact ih hlast j hmem

theorem lastJobWithHash_of_unique {h : List Char} {jobs : List CareerjetJob}
    {j : CareerjetJob} (hmem : j ∈ jobs)
    (hhash : extractHashFromSlug j.slug = h)
    (huniq : ∀ j' ∈ jobs, extractHashFromSlug j'.slug = h → j' = j) :
    lastJobWithHash h jobs = some j := by
  cases hl : lastJobWithHash h jobs with
  | some j' =>
    obtain ⟨hm, hh⟩ := lastJobWithHash_eq_some hl
    rw [huniq j' hm hh]
  | none => exact absurd hhash (lastJobWithHash_eq_none hl j hmem)

/-- Claim C3: after `rememberJobs`, an immediate `getJobFromCache` on a hash
`h` occurring among the remembered jobs — evaluated at a time not past the
freshly computed expiration `now + JOB_CACHE_TTL_MS` — returns exactly the
job of the list whose slug's hash is `h` (unique by hypothesis). -/
theorem remember_then_get (cache : JobCache) (now now2 : Nat)
    (jobs : List CareerjetJob) (h : List Char) (j : CareerjetJob)
    (hmem : j ∈ jobs) (hhash : extractHashFromSlug j.slug = h)
    (huniq : ∀ j' ∈ jobs, extractHashFromSlug j'.slug = h → j' = j)
    (htime : now2 ≤ now + JOB_CACHE_TTL_MS) :
    (getJobFromCache (rememberJobs cache now jobs) now2 h).1 = some j := by
  have hget := mapGet_rememberJobs cache now jobs h
  rw [lastJobWithHash_of_unique hmem hhash huniq] at hget
  simp only [getJobFromCache, hget]
  have hlt : ¬ ((⟨j, now + JOB_CACHE_TTL_MS⟩ : CacheEntry).expiresAt < now2) := by
    show ¬ (now + JOB_CACHE_TTL_MS < now2)
    omega
  rw [if_neg hlt]

/-- Witness for C3 with a one-job list. -/
theorem remember_then_get_witness :
    sampleJob ∈ [sampleJob] ∧
    extractHashFromSlug sampleJob.slug = ("x").toList ∧
    (∀ j' ∈ [sampleJob],
      extractHashFromSlug j'.slug = ("x").toList → j' = sampleJob) ∧
    0 ≤ 0 + JOB_CACHE_TTL_MS ∧
    (getJobFromCache (rememberJobs [] 0 [sampleJob]) 0
      (("x").toList)).1 = some sampleJob :=
  ⟨by decide, by decide, by decide, by decide,
   remember_then_get [] 0 0 [sampleJob] (("x").toList) sampleJob
     (by decide) (by decide) (by decide) (by decide)⟩

theorem mapGet_mapDelete_self (m : JobCache) (k : List Char) :
    mapGet (mapDelete m k) k = none := by
  induction m with
  | nil => rfl
  | cons p rest ih =>
    obtain ⟨k0, v0⟩ := p
    simp only [mapDelete, List.filter_cons] at *
    by_cases hk : k0 = k
    · rw [if_neg (by simp [hk])]
      exact ih
    · rw [if_pos (by simp [hk])]
      simp only [mapGet, if_neg hk]
      exact ih

theorem getCachedJobsSnapshot_eq (cache : JobCache) (now : Nat) :
    getCachedJobsSnapshot cache now =
      ((cache.filter fun p => now ≤ p.2.expiresAt).map fun p => p.2.job,
       cache.filter fun p => now ≤ p.2.expiresAt) := by
  induction cache with
  | nil => rfl
  | cons q rest ih =>
    obtain ⟨hash, e⟩ := q
    simp only [getCachedJobsSnapshot, ih, List.filter_cons]
    by_cases he : e.expiresAt ≥ now
    · rw [if_pos he, if_pos (by simpa using he)]
      simp
    · rw [if_neg he, if_neg (by simpa using he)]

/-- Claim C4: once the current time exceeds a cache entry's expiration,
`getJobFromCache` on its hash returns `none` and removes the entry, which
is then absent from any subsequent snapshot; a snapshot itself keeps
exactly the non-expired entries (evicting every expired entry it scans) and
returns precisely their job records. -/
theorem cache_expiry_evicts (cache : JobCache) (now now2 : Nat)
    (h : List Char) (e : CacheEntry)
    (hget : mapGet cache h = some e) (hexp : e.expiresAt < now) :
    (getJobFromCache cache now h).1 = none ∧
    mapGet (getJobFromCache cache now h).2 h = none ∧
    (∀ v, (h, v) ∉
      (getCachedJobsSnapshot (getJobFromCache cache now h).2 now2).2) ∧
    (h, e) ∉ (getCachedJobsSnapshot cache now).2 ∧
    (∀ p ∈ cache, p.2.expiresAt < now →
      p ∉ (getCachedJobsSnapshot cache now).2) ∧
    (∀ p ∈ (getCachedJobsSnapshot cache now).2, now ≤ p.2.expiresAt) ∧
    (getCachedJobsSnapshot cache now).1 =
      ((getCachedJobsSnapshot cache now).2).map (fun p => p.2.job) := by
  have hg2 : (getJobFromCache cache now h).2 = mapDelete cache h := by
    simp only [getJobFromCache, hget]
    rw [if_pos hexp]
  have hg1 : (getJobFromCache cache now h).1 = none := by
    simp only [getJobFromCache, hget]
    rw [if_pos hexp]
  refine ⟨hg1, ?_, ?_, ?_, ?_, ?_, ?_⟩
  · rw [hg2]
    exact mapGet_mapDelete_self cache h
  · intro v hv
    rw [hg2, getCachedJobsSnapshot_eq] at hv
    have hmem := (List.mem_filter.mp hv).1
    have hpred := (List.mem_filter.mp hmem).2
    simp [mapDelete] at hpred
  · intro hv
    rw [getCachedJobsSnapshot_eq] at hv
    have h2 := (List.mem_filter.mp hv).2
    simp only [decide_eq_true_eq] at h2
    omega
  · intro p _ hpe hv
    rw [getCachedJobsSnapshot_eq] at hv
    have h2 := (List.mem_filter.mp hv).2
    simp only [decide_eq_true_eq] at h2
    omega
  · intro p hv
    rw [getCachedJobsSnapshot_eq] at hv
    have h2 := (List.mem_filter.mp hv).2
    simpa using h2
  · simp [getCachedJobsSnapshot_eq]

/-- Witness for C4 at a concrete expired entry. -/
theorem cache_expiry_evicts_witness :
    mapGet [((("x").toList), ⟨sampleJob, 5⟩)] (("x").toList) =
      some ⟨sampleJob, 5⟩ ∧
    (5 : Nat) < 10 ∧
    (getJobFromCache [((("x").toList), ⟨sampleJob, 5⟩)] 10
      (("x").toList)).1 = none :=
  ⟨by decide, by decide,
   (cache_expiry_evicts [((("x").toList), ⟨sampleJob, 5⟩)] 10 0
     (("x").toList) ⟨sampleJob, 5⟩ (by decide) (by decide)).1⟩

theorem wellKeyed_mapSet {k : List Char} {v : CacheEntry}
    (hk : extractHashFromSlug v.job.slug = k) :
    ∀ c : JobCache, CacheWellKeyed c → CacheWellKeyed (mapSet c k v) := by
  intro c
  induction c with
  | nil =>
    intro _ p hp
    rcases List.mem_cons.mp hp with rfl | hmem
    · exact hk
    · cases hmem
  | cons q rest ih =>
    obtain ⟨k0, v0⟩ := q
    intro hw p hp
    simp only [mapSet] at hp
    by_cases hk0 : k0 = k
    · rw [if_pos hk0] at hp
      rcases List.mem_cons.mp hp with rfl | hmem
      · exact hk
      · exact hw _ (List.mem_cons_of_mem _ hmem)
    · rw [if_neg hk0] at hp
      rcases List.mem_cons.mp hp with rfl | hmem
      · exact hw _ (List.mem_cons_self _ _)
      · exact ih (fun q hq => hw q (List.mem_cons_of_mem _ hq)) p hmem

theorem wellKeyed_rememberJobs (now : Nat) (jobs : List CareerjetJob) :
    ∀ c : JobCache, CacheWellKeyed c →
      CacheWellKeyed (rememberJobs c now jobs) := by
  induction jobs with
  | nil =>
    intro c hw
    exact hw
  | cons j js ih =>
    intro c hw
    simp only [rememberJobs, List.foldl_cons] at *
    exact ih _
      (wellKeyed_mapSet (v := ⟨j, now + JOB_CACHE_TTL_MS⟩) rfl c hw)

theorem wellKeyed_getJobFromCache (c : JobCache) (now : Nat)
    (hash : List Char) (hw : CacheWellKeyed c) :
    CacheWellKeyed (getJobFromCache c now hash).2 := by
  simp only [getJobFromCache]
  cases hget : mapGet c hash with
  | none => exact hw
  | some cached =>
    show CacheWellKeyed
      (if cached.expiresAt < now then (none, mapDelete c hash)
       else (some cached.job, c)).2
    by_cases hexp : cached.expiresAt < now
    · rw [if_pos hexp]
      intro p hp
      exact hw p (List.mem_filter.mp hp).1
    · rw [if_neg hexp]
      exact hw

theorem wellKeyed_getCachedJobsSnapshot (c : JobCache) (now : Nat)
    (hw : CacheWellKeyed c) :
    CacheWellKeyed (getCachedJobsSnapshot c now).2 := by
  rw [getCachedJobsSnapshot_eq]
  intro p hp
  exact hw p (List.mem_filter.mp hp).1

/-- Claim C9: every cache state reachable by any sequence of
`rememberJobs`, `getJobFromCache` and `getCachedJobsSnapshot` operations
maps each key `k` to a job whose slug hash is `k`: `rememberJobs`
establishes the binding, and the two read paths only delete entries. -/
theorem reachable_cache_wellKeyed (c : JobCache) (hr : CacheReachable c) :
    CacheWellKeyed c := by
  induction hr with
  | init =>
    intro p hp
    cases hp
  | rememberStep c now jobs _ ih => exact wellKeyed_rememberJobs now jobs c ih
  | getStep c now hash _ ih => exact wellKeyed_getJobFromCache c now hash ih
  | snapshotStep c now _ ih => exact wellKeyed_getCachedJobsSnapshot c now ih

/-- Witness for C9 at a concrete reachable state. -/
theorem reachable_cache_wellKeyed_witness :
    CacheReachable (rememberJobs [] 0 [sampleJob]) ∧
    CacheWellKeyed (rememberJobs [] 0 [sampleJob]) :=
  ⟨CacheReachable.rememberStep [] 0 [sampleJob] CacheReachable.init,
   reachable_cache_wellKeyed _
     (CacheReachable.rememberStep [] 0 [sampleJob] CacheReachable.init)⟩

/-! ### Search client and resolver claims -/

/-- Claim C1: whenever the fetch-and-parse step throws, `searchJobs`
returns (never throws) a response whose `type` is the `"ERROR"`
discriminator, whose `message` is the thrown error's (non-empty) message,
and whose job list is empty with `hits` 0 and `pages` 1. -/
theorem searchJobs_converts_errors (criteria : CareerjetSearchCriteria)
    (env : Option (List Char)) (net : CareerjetSearchCriteria → NetOutcome)
    (cache : JobCache) (now : Nat) (e : JsError)
    (hthrow : cachedSearch env (net criteria) cache now = .error e)
    (hisErr : e.isError = true) (hmsg : e.message ≠ []) :
    (searchJobs criteria env net cache now).1.type = ("ERROR").toList ∧
    (searchJobs criteria env net cache now).1.message = some e.message ∧
    (searchJobs criteria env net cache now).1.message ≠ some [] ∧
    (searchJobs criteria env net cache now).1.jobs = some [] ∧
    (searchJobs criteria env net cache now).1.hits = some 0 ∧
    (searchJobs criteria env net cache now).1.pages = some 1 := by
  have hs : searchJobs criteria env net cache now =
      (emptyResponse (some e.message), cache) := by
    simp only [searchJobs, hthrow]
    rw [if_pos hisErr]
  rw [hs]
  refine ⟨rfl, rfl, ?_, rfl, rfl, rfl⟩
  simpa [emptyResponse] using hmsg

/-- Witness for C1: a rejecting fetch (network failure) with a present
API key. -/
theorem searchJobs_converts_errors_witness :
    cachedSearch (some (("k").toList)) (rejectNet {}) [] 0 =
      .error ⟨("fetch failed").toList, true⟩ ∧
    (⟨("fetch failed").toList, true⟩ : JsError).isError = true ∧
    (⟨("fetch failed").toList, true⟩ : JsError).message ≠ [] ∧
    (searchJobs {} (some (("k").toList)) rejectNet [] 0).1.type =
      ("ERROR").toList :=
  ⟨rfl, rfl, by decide,
   (searchJobs_converts_errors {} (some (("k").toList)) rejectNet [] 0
     ⟨("fetch failed").toList, true⟩ rfl rfl (by decide)).1⟩

/-- Claim C2 (amended): when `CAREERJET_API_KEY` is absent, the
missing-credential error is thrown inside the fetch-and-parse step before
any network attempt — the outcome is independent of the network behavior —
but it IS caught by `searchJobs`'s error handling and converted into the
error-tagged empty response carrying the missing-credential message
(callers never see the exception). -/
theorem missing_key_caught (criteria : CareerjetSearchCriteria)
    (net net' : CareerjetSearchCriteria → NetOutcome) (cache : JobCache)
    (now : Nat) :
    cachedSearch none (net criteria) cache now =
      .error ⟨missingApiKeyMessage, true⟩ ∧
    (searchJobs criteria none net cache now).1 =
      emptyResponse (some missingApiKeyMessage) ∧
    (searchJobs criteria none net cache now).2 = cache ∧
    searchJobs criteria none net cache now =
      searchJobs criteria none net' cache now :=
  ⟨rfl, rfl, rfl, rfl⟩

/-- Counterexample to C2 as stated: with the API key absent, `searchJobs`
does not raise the missing-credential error to its caller — the error is
caught by the search path's handling and converted into an error-tagged
response object. -/
theorem missing_key_caught_counterexample :
    (searchJobs {} none rejectNet [] 0).1 =
      emptyResponse (some missingApiKeyMessage) ∧
    (searchJobs {} none rejectNet [] 0).1.type = ("ERROR").toList ∧
    (searchJobs {} none rejectNet [] 0).1.message =
      some missingApiKeyMessage :=
  ⟨rfl, rfl, rfl⟩

/-- Claim C10: `normalizeJob` always sets `apply_url`, and sets it to the
record's canonical source URL (the raw `url`, or the empty string when the
raw `url` is absent); no separate apply link is consulted, so `apply_url`
is never a distinct link and never absent. -/
theorem normalizeJob_apply_url (raw : CareerjetRawJob) :
    (normalizeJob raw).apply_url = some ((normalizeJob raw).url) ∧
    (normalizeJob raw).url = raw.url.getD [] ∧
    (normalizeJob raw).apply_url ≠ none := by
  refine ⟨rfl, rfl, ?_⟩
  simp [normalizeJob]

/-- Claim C7: when the cache holds no live entry for the slug's hash and
the single re-issued search yields no job whose own slug hash equals that
hash, `findJobBySlug` returns `none`; moreover the lookup consults the
network only at the one derived criteria (no pagination sweep, no retried
search with broadened criteria). -/
theorem findJobBySlug_not_found (slug : List Char)
    (fb : CareerjetSearchCriteria) (env : Option (List Char))
    (net net' : CareerjetSearchCriteria → NetOutcome) (cache : JobCache)
    (now : Nat)
    (hmiss : (getJobFromCache cache now (extractHashFromSlug slug)).1 = none)
    (hnone : ∀ j ∈ ((searchJobs (resolveCriteria slug fb) env net
        (getJobFromCache cache now (extractHashFromSlug slug)).2
        now).1.jobs.getD []),
      extractHashFromSlug j.slug ≠ extractHashFromSlug slug) :
    (findJobBySlug slug fb env net cache now).1 = none ∧
    (net' (resolveCriteria slug fb) = net (resolveCriteria slug fb) →
      findJobBySlug slug fb env net' cache now =
        findJobBySlug slug fb env net cache now) := by
  constructor
  · simp only [findJobBySlug, hmiss]
    cases hjobs : (searchJobs (resolveCriteria slug fb) env net
        (getJobFromCache cache now (extractHashFromSlug slug)).2
        now).1.jobs with
    | none => rfl
    | some js =>
      rw [List.find?_eq_none]
      intro x hx
      have hph := hnone x (by rw [hjobs]; exact hx)
      simpa using hph
  · intro hnet
    simp only [findJobBySlug, searchJobs, hnet]

/-- Witness for C7: empty cache and a failing fallback search. -/
theorem findJobBySlug_not_found_witness :
    ((getJobFromCache [] 0 (extractHashFromSlug (("a-b").toList))).1 =
      none) ∧
    (∀ j ∈ ((searchJobs (resolveCriteria (("a-b").toList) {})
        (some (("k").toList)) rejectNet
        (getJobFromCache [] 0 (extractHashFromSlug (("a-b").toList))).2
        0).1.jobs.getD []),
      extractHashFromSlug j.slug ≠ extractHashFromSlug (("a-b").toList)) ∧
    (findJobBySlug (("a-b").toList) {} (some (("k").toList)) rejectNet []
      0).1 = none :=
  ⟨by decide, by decide,
   (findJobBySlug_not_found (("a-b").toList) {} (some (("k").toList))
     rejectNet rejectNet [] 0 (by decide) (by decide)).1⟩

/-- Claim C8 (amended): the emitted sitemap is the home entry followed by
exactly one entry per job of the cache snapshot when that snapshot is
non-empty; when the snapshot is empty, the job entries instead come from
the single fallback search `searchJobs { pageSize := 20 }`.  Each job
entry carries the job's detail URL `origin ++ "/jobs/" ++ slug`, a
last-modified equal to the job's parsed posting date (or the current time
when unparseable), change frequency `"daily"` and priority `0.6`. -/
theorem sitemap_shape (siteUrl : List Char)
    (parseDate : List Char → Option Int) (nowDate : Int)
    (env : Option (List Char)) (net : CareerjetSearchCriteria → NetOutcome)
    (cache : JobCache) (now : Nat) :
    ((getCachedJobsSnapshot cache now).1 ≠ [] →
      (sitemap siteUrl parseDate nowDate env net cache now).1 =
        homeSitemapEntry (stripTrailingSlash siteUrl) nowDate ::
          ((getCachedJobsSnapshot cache now).1).map
            (jobSitemapEntry (stripTrailingSlash siteUrl) parseDate
              nowDate)) ∧
    ((getCachedJobsSnapshot cache now).1 = [] →
      (sitemap siteUrl parseDate nowDate env net cache now).1 =
        homeSitemapEntry (stripTrailingSlash siteUrl) nowDate ::
          ((searchJobs { pageSize := some 20 } env net
              (getCachedJobsSnapshot cache now).2 now).1.jobs.getD
              []).map
            (jobSitemapEntry (stripTrailingSlash siteUrl) parseDate
              nowDate)) ∧
    (∀ job,
      (jobSitemapEntry (stripTrailingSlash siteUrl) parseDate nowDate
          job).url =
        stripTrailingSlash siteUrl ++ ("/jobs/").toList ++ job.slug ∧
      (jobSitemapEntry (stripTrailingSlash siteUrl) parseDate nowDate
          job).lastModified = (parseDate job.date).getD nowDate ∧
      (jobSitemapEntry (stripTrailingSlash siteUrl) parseDate nowDate
          job).changeFrequency = ("daily").toList ∧
      (jobSitemapEntry (stripTrailingSlash siteUrl) parseDate nowDate
          job).priority = (6 : Rat) / 10) := by
  refine ⟨?_, ?_, fun job => ⟨rfl, rfl, rfl, rfl⟩⟩
  · intro hne
    simp only [sitemap]
    rw [if_neg (by simpa [List.length_eq_zero] using hne)]
  · intro heq
    simp only [sitemap]
    rw [if_pos (by simpa [List.length_eq_zero] using heq)]

/-- Counterexample to C8 as stated: with an empty cache (zero currently
cached jobs) but a fallback search returning one job, the emitted sitemap
has two entries (home plus one job entry), not home plus zero. -/
theorem sitemap_shape_counterexample :
    ((sitemap [] (fun _ => none) 0 (some (("k").toList)) oneJobNet []
      0).1).length = 2 ∧
    ((getCachedJobsSnapshot [] 0).1).length = 0 :=
  ⟨rfl, rfl⟩

/-- Witness for C8 (amended) with a non-empty cache snapshot. -/
theorem sitemap_shape_witness :
    ((getCachedJobsSnapshot [((("x").toList), ⟨sampleJob, 100⟩)] 0).1 ≠
      []) ∧
    (sitemap (("s").toList) (fun _ => none) 0 none rejectNet
      [((("x").toList), ⟨sampleJob, 100⟩)] 0).1 =
      homeSitemapEntry (stripTrailingSlash (("s").toList)) 0 ::
        ((getCachedJobsSnapshot [((("x").toList), ⟨sampleJob, 100⟩)]
          0).1).map
          (jobSitemapEntry (stripTrailingSlash (("s").toList))
            (fun _ => none) 0) :=
  ⟨by decide,
   (sitemap_shape (("s").toList) (fun _ => none) 0 none rejectNet
     [((("x").toList), ⟨sampleJob, 100⟩)] 0).1 (by decide)⟩
